import Mathlib

/-!
# Verification of the default-search-plugin of the vendure repository

This file gives a shallow embedding of the `MysqlSearchStrategy`
(`src/server/src/plugin/default-search-plugin/search-strategy/mysql-search-strategy.ts`)
and of the `FulltextSearchService`
(`src/server/src/plugin/default-search-plugin/fulltext-search.service.ts`),
and proves / refutes the frozen claims about them.

Modelling conventions:
* The SQL table of `SearchIndexItem` rows is a `List SearchIndexItem`.
* The MySQL native fulltext relevance `MATCH (col) AGAINST (:term)` is an
  abstract parameter `ft : FtRank`; as in MySQL, the boolean reading of the
  predicate is `0 < ft doc term`.
* `sku LIKE :like_term` with `like_term = '%term%'` is substring containment.
* TypeORM / JS specifics are embedded faithfully: `input.take || 25` treats
  both an absent and a zero `take` as 25; `term && term.length > minTermLength`
  uses the *strict* comparison found in the source.
-/

namespace VendureSearch

/-! ## Basic string containment (SQL `LIKE '%term%'`) -/

/-- Does the character list `needle` occur contiguously inside `hay`? -/
def listContains (needle : List Char) : List Char → Bool
  | [] => needle.isEmpty
  | c :: t => needle.isPrefixOf (c :: t) || listContains needle t

/-- `hay LIKE '%needle%'` : substring containment on strings. -/
def strContains (hay needle : String) : Bool :=
  listContains needle.toList hay.toList

/-! ## Data model: the search index row and the search input -/

/-- One row of the `SearchIndexItem` table (the Index Store). -/
structure SearchIndexItem where
  productVariantId : Nat
  languageCode : String
  productId : Nat
  sku : String
  slug : String
  price : Int
  productName : String
  productVariantName : String
  description : String
  productPreview : String
  productVariantPreview : String
  facetIds : List String
  facetValueIds : List String
deriving DecidableEq, Repr

/-- Sort direction of a sort directive. -/
inductive SortOrder where
  | ASC
  | DESC
deriving DecidableEq, Repr

/-- The `sort` field of `SearchInput`. -/
structure SortParameter where
  name : Option SortOrder
  price : Option SortOrder
deriving Repr

/-- The GraphQL `SearchInput` object. -/
structure SearchInput where
  term : Option String
  facetIds : Option (List String)
  skip : Option Int
  take : Option Int
  sort : Option SortParameter
  groupByProduct : Option Bool
deriving Repr

/-- Abstract native fulltext relevance: `ft doc term` is the rank MySQL
assigns to document `doc` for search term `term`. -/
def FtRank : Type := String → String → ℚ

/-- `MysqlSearchStrategy.minTermLength` (source line 16). -/
def minTermLength : Nat := 2

/-- The JS expression `x || d` on an optional number: `none` and `0` are falsy. -/
def jsOr (x : Option Int) (d : Int) : Int :=
  match x with
  | none => d
  | some v => if v = 0 then d else v

/-! ## The WHERE / SELECT clauses of `applyTermAndFilters` -/

/-- Does the term trigger the fulltext branch?  Source line 77:
`term && term.length > this.minTermLength` (note: *strictly* greater). -/
def termTriggers (input : SearchInput) : Bool :=
  match input.term with
  | none => false
  | some t => !(t == "") && decide (minTermLength < t.length)

/-- The WHERE brackets of the term branch (source lines 87-94): SKU
contains-match OR one of the three fulltext predicates holds. -/
def isCandidate (ft : FtRank) (term : String) (it : SearchIndexItem) : Bool :=
  strContains it.sku term
    || decide (0 < ft it.productName term)
    || decide (0 < ft it.productVariantName term)
    || decide (0 < ft it.description term)

/-- The `score` select expression (source lines 78-86):
`IF (sku LIKE :like_term, 10, 0) + MATCH(productName)*2 +
MATCH(productVariantName)*1.5 + MATCH(description)*1`. -/
def rankScore (ft : FtRank) (term : String) (it : SearchIndexItem) : ℚ :=
  (if strContains it.sku term then (10 : ℚ) else 0)
    + ft it.productName term * 2
    + ft it.productVariantName term * (3 / 2)
    + ft it.description term * 1

/-- A result row: the index row together with its `score` column
(`none` when no score was selected). -/
def Row : Type := SearchIndexItem × Option ℚ

instance : DecidableEq Row := inferInstanceAs (DecidableEq (SearchIndexItem × Option ℚ))

/-- The facet filter (source lines 97-102): one conjunctive
`FIND_IN_SET(:id, facetValueIds)` clause per requested facet id. -/
def applyFacetFilter (input : SearchInput) (rows : List Row) : List Row :=
  match input.facetIds with
  | none => rows
  | some ids => rows.filter (fun r => ids.all (fun i => decide (i ∈ r.1.facetValueIds)))

/-- First-occurrence deduplication of a list by a key, modelling
`GROUP BY` (one representative row per key, in first-appearance order). -/
def dedupByAux {α β : Type _} [DecidableEq β] (k : α → β) : List α → List β → List α
  | [], _ => []
  | x :: xs, seen =>
    if k x ∈ seen then dedupByAux k xs seen else x :: dedupByAux k xs (k x :: seen)

/-- `GROUP BY` modelled as keyed first-occurrence deduplication. -/
def dedupBy {α β : Type _} [DecidableEq β] (k : α → β) (l : List α) : List α :=
  dedupByAux k l []

/-- The `groupBy('productId')` clause (source lines 103-105). -/
def applyGroupBy (input : SearchInput) (rows : List Row) : List Row :=
  if input.groupByProduct = some true then dedupBy (fun r => r.1.productId) rows else rows

/-- The term branch of `applyTermAndFilters` followed by the facet filter:
all WHERE clauses, i.e. the rows of the query before GROUP BY. -/
def preGroupRows (ft : FtRank) (store : List SearchIndexItem) (input : SearchInput) :
    List Row :=
  applyFacetFilter input
    (match input.term with
     | none => store.map (fun it => (it, (none : Option ℚ)))
     | some t =>
       if !(t == "") && decide (minTermLength < t.length) then
         (store.filter (isCandidate ft t)).map (fun it => (it, some (rankScore ft t it)))
       else store.map (fun it => (it, (none : Option ℚ))))

/-- `MysqlSearchStrategy.applyTermAndFilters` (source lines 70-107):
term/facet WHERE clauses, score SELECT, and GROUP BY. -/
def applyTermAndFilters (ft : FtRank) (store : List SearchIndexItem)
    (input : SearchInput) : List Row :=
  applyGroupBy input (preGroupRows ft store input)

/-! ## ORDER BY: a three-valued comparator built like the source's
`orderBy('score', 'DESC')` / `addOrderBy(...)` chain -/

/-- Three-valued comparison from a linear order. -/
def cmp3 {α : Type _} [LinearOrder α] (x y : α) : Ordering :=
  if x < y then Ordering.lt else if y < x then Ordering.gt else Ordering.eq

/-- Directional comparison: `ASC` compares forward, `DESC` backward. -/
def dirCmp {α : Type _} [LinearOrder α] (o : SortOrder) (x y : α) : Ordering :=
  match o with
  | SortOrder.ASC => cmp3 x y
  | SortOrder.DESC => cmp3 y x

/-- The `score` column of a row, read as MySQL reads the ORDER BY key. -/
def scoreOf (r : Row) : ℚ := r.2.getD 0

/-- The primary sort key: `orderBy('score', 'DESC')`, present only when the
term triggers ranking (source lines 37-39). -/
def scoreCmpOf (input : SearchInput) : Row → Row → Ordering :=
  if termTriggers input then fun a b => cmp3 (scoreOf b) (scoreOf a)
  else fun _ _ => Ordering.eq

/-- The secondary sort key: `addOrderBy('productName', sort.name)`
(source lines 41-43). -/
def nameCmpOf (input : SearchInput) : Row → Row → Ordering :=
  match input.sort with
  | none => fun _ _ => Ordering.eq
  | some s =>
    match s.name with
    | none => fun _ _ => Ordering.eq
    | some o => fun a b => dirCmp o a.1.productName b.1.productName

/-- The tertiary sort key: `addOrderBy('price', sort.price)`
(source lines 44-46). -/
def priceCmpOf (input : SearchInput) : Row → Row → Ordering :=
  match input.sort with
  | none => fun _ _ => Ordering.eq
  | some s =>
    match s.price with
    | none => fun _ _ => Ordering.eq
    | some o => fun a b => dirCmp o a.1.price b.1.price

/-- The full ORDER BY chain: score (if ranking), then name, then price. -/
def rowCmp (input : SearchInput) (a b : Row) : Ordering :=
  (scoreCmpOf input a b).then ((nameCmpOf input a b).then (priceCmpOf input a b))

/-- The non-strict order induced by the ORDER BY chain. -/
def rowLE (input : SearchInput) (a b : Row) : Prop :=
  rowCmp input a b ≠ Ordering.gt

instance rowLEDecidable (input : SearchInput) : DecidableRel (rowLE input) :=
  fun a b => inferInstanceAs (Decidable (rowCmp input a b ≠ Ordering.gt))

/-- Sorting of the result rows by the ORDER BY chain (stable, so rows the
chain does not distinguish keep their relative order). -/
def sortRows (input : SearchInput) (rows : List Row) : List Row :=
  List.insertionSort (rowLE input) rows

/-! ## The three public strategy queries -/

/-- `MysqlSearchStrategy.getSearchResults` with `take`/`skip` removed:
the fully filtered, grouped and ordered result sequence. -/
def getSearchResultsUnpaginated (ft : FtRank) (store : List SearchIndexItem)
    (input : SearchInput) : List Row :=
  sortRows input (applyTermAndFilters ft store input)

/-- `MysqlSearchStrategy.getSearchResults` (source lines 31-54):
filters, score, GROUP BY, ORDER BY, then `take (input.take || 25)` and
`skip (input.skip || 0)`. -/
def getSearchResults (ft : FtRank) (store : List SearchIndexItem)
    (input : SearchInput) : List Row :=
  (((getSearchResultsUnpaginated ft store input).drop (jsOr input.skip 0).toNat).take
    (jsOr input.take 25).toNat)

/-- `MysqlSearchStrategy.getTotalCount` (source lines 56-68): `COUNT(*)`
over the `applyTermAndFilters` query used as a subquery. -/
def getTotalCount (ft : FtRank) (store : List SearchIndexItem)
    (input : SearchInput) : Nat :=
  (applyTermAndFilters ft store input).length

/-! ## Spec-side pipelines (for the refinement claims C1) -/

/-- Spec-side definition, following the spec's words for the no-term case:
"filters apply only facet-id membership", no score column is computed. -/
def facetOnlyRows (store : List SearchIndexItem) (input : SearchInput) : List Row :=
  applyGroupBy input
    (applyFacetFilter input (store.map (fun it => (it, (none : Option ℚ)))))

/-- Spec-side definition, following the spec's words for the term case:
candidates are the rows matching SKU-contains or a fulltext predicate,
each carrying its weighted score. -/
def rankedRows (ft : FtRank) (t : String) (store : List SearchIndexItem)
    (input : SearchInput) : List Row :=
  applyGroupBy input
    (applyFacetFilter input
      ((store.filter (isCandidate ft t)).map (fun it => (it, some (rankScore ft t it)))))

/-- A well-behaved three-valued comparator: antisymmetric under `swap` and
transitive in each of the lt/eq combinations. -/
structure LawfulCmp {β : Type _} (f : β → β → Ordering) : Prop where
  swap_eq : ∀ a b, f a b = (f b a).swap
  lt_trans : ∀ {a b c}, f a b = Ordering.lt → f b c = Ordering.lt → f a c = Ordering.lt
  lt_of_lt_of_eq : ∀ {a b c}, f a b = Ordering.lt → f b c = Ordering.eq → f a c = Ordering.lt
  lt_of_eq_of_lt : ∀ {a b c}, f a b = Ordering.eq → f b c = Ordering.lt → f a c = Ordering.lt
  eq_trans : ∀ {a b c}, f a b = Ordering.eq → f b c = Ordering.eq → f a c = Ordering.eq

end VendureSearch

namespace VendureSync

open VendureSearch

/-! ## Catalog data model (the entities the Synchronizer denormalizes) -/

/-- A facet value together with the id of its parent facet
(`fv.id`, `fv.facet.id`). -/
structure FacetValueM where
  id : Nat
  facetId : Nat
deriving DecidableEq, Repr

/-- A product variant with the denormalization relations loaded.  Fields the
source reads after `translateDeep(v, languageCode, ...)` are functions of the
language code. -/
structure ProductVariantM where
  id : Nat
  sku : String
  price : Int
  name : String → String
  featuredAssetPreview : Option String
  facetValues : List FacetValueM

/-- A product with the denormalization relations loaded. -/
structure ProductM where
  id : Nat
  slug : String → String
  name : String → String
  description : String → String
  deletedAt : Option Nat
  featuredAssetPreview : Option String
  facetValues : List FacetValueM
  variants : List ProductVariantM

/-- The catalog database: the authoritative products (with their variants). -/
structure Catalog where
  products : List ProductM

/-- Every (parent product, variant) row of the variant table. -/
def allPairs (c : Catalog) : List (ProductM × ProductVariantM) :=
  c.products.flatMap (fun p => p.variants.map (fun v => (p, v)))

/-- `connection.getRepository(Product).findOne(id, ...)`. -/
def findProduct (c : Catalog) (pid : Nat) : Option ProductM :=
  c.products.find? (fun p => p.id == pid)

/-- `connection.getRepository(ProductVariant).findOne(id, relations)`:
the variant row with its parent product joined. -/
def findVariantPair (c : Catalog) (vid : Nat) : Option (ProductM × ProductVariantM) :=
  (allPairs c).find? (fun pv => pv.2.id == vid)

/-- `connection.getRepository(ProductVariant).findByIds(ids, relations)`:
every variant row whose id is listed, with its parent product joined. -/
def findVariantPairsByIds (c : Catalog) (ids : List Nat) :
    List (ProductM × ProductVariantM) :=
  (allPairs c).filter (fun pv => pv.2.id ∈ ids)

/-! ## Building index records (`saveSearchIndexItems`, lines 165-187) -/

/-- Modelled from the spec: the shared `unique` helper
(`src/shared/unique`, imported but not under `src/`); the spec calls its
result the "duplicate-free union", modelled as first-occurrence
deduplication. -/
def unique {α : Type _} [DecidableEq α] (l : List α) : List α :=
  dedupBy (fun x => x) l

/-- `FulltextSearchService.getFacetIds` (source lines 200-205). -/
def getFacetIds (p : ProductM) (v : ProductVariantM) : List String :=
  unique (v.facetValues.map (fun fv => toString fv.facetId)
    ++ p.facetValues.map (fun fv => toString fv.facetId))

/-- `FulltextSearchService.getFacetValueIds` (source lines 207-212). -/
def getFacetValueIds (p : ProductM) (v : ProductVariantM) : List String :=
  unique (v.facetValues.map (fun fv => toString fv.id)
    ++ p.facetValues.map (fun fv => toString fv.id))

/-- The `new SearchIndexItem({...})` construction inside
`saveSearchIndexItems` (source lines 168-185), after `translateDeep`. -/
def mkSearchIndexItem (lang : String) (p : ProductM) (v : ProductVariantM) :
    SearchIndexItem :=
  { sku := v.sku
    slug := p.slug lang
    price := v.price
    languageCode := lang
    productVariantId := v.id
    productId := p.id
    productName := p.name lang
    description := p.description lang
    productVariantName := v.name lang
    productPreview := p.featuredAssetPreview.getD ""
    productVariantPreview := v.featuredAssetPreview.getD ""
    facetIds := getFacetIds p v
    facetValueIds := getFacetValueIds p v }

/-! ## The Index Store operations -/

/-- The composite primary key of the `SearchIndexItem` entity.  Modelled from
the spec: the entity file is not under `src/`; spec §3 fixes
"`productVariantId`, `languageCode` — together the unique key". -/
def ikey (it : SearchIndexItem) : Nat × String :=
  (it.productVariantId, it.languageCode)

/-- One step of `repository.save`: replace the row(s) with the same
primary key, or append the row if its key is absent. -/
def upsertOne (st : List SearchIndexItem) (it : SearchIndexItem) :
    List SearchIndexItem :=
  if st.any (fun o => ikey o = ikey it) then
    st.map (fun o => if ikey o = ikey it then it else o)
  else st ++ [it]

/-- `repository.save(items)`: bulk upsert, left to right. -/
def saveItems (st : List SearchIndexItem) (items : List SearchIndexItem) :
    List SearchIndexItem :=
  items.foldl upsertOne st

/-- `FulltextSearchService.saveSearchIndexItems` (source lines 165-187). -/
def saveSearchIndexItems (lang : String) (pvs : List (ProductM × ProductVariantM))
    (st : List SearchIndexItem) : List SearchIndexItem :=
  saveItems st (pvs.map (fun pv => mkSearchIndexItem lang pv.1 pv.2))

/-- `FulltextSearchService.removeSearchIndexItems` (source lines 192-198):
composite-key delete by (variant id, language of the request context). -/
def removeSearchIndexItems (lang : String) (ids : List Nat)
    (st : List SearchIndexItem) : List SearchIndexItem :=
  st.filter (fun it => decide ¬(it.productVariantId ∈ ids ∧ it.languageCode = lang))

/-! ## `update`, `reindex`, `checkIndex` -/

/-- The mutated-entity reference carried by a `CatalogModificationEvent`. -/
inductive CatalogEntity where
  | product (id : Nat)
  | variant (id : Nat)
deriving DecidableEq, Repr

/-- The `updatedVariants` computed by `FulltextSearchService.update`
(source lines 115-139), with parent products joined. -/
def updateTargets (c : Catalog) (e : CatalogEntity) :
    List (ProductM × ProductVariantM) :=
  match e with
  | CatalogEntity.product pid =>
    match findProduct c pid with
    | none => []
    | some p =>
      if p.deletedAt.isSome then []
      else findVariantPairsByIds c (p.variants.map (fun v => v.id))
  | CatalogEntity.variant vid =>
    match findVariantPair c vid with
    | none => []
    | some pv => [pv]

/-- The `removedVariantIds` computed by `FulltextSearchService.update`. -/
def removedIds (c : Catalog) (e : CatalogEntity) : List Nat :=
  match e with
  | CatalogEntity.product pid =>
    match findProduct c pid with
    | none => []
    | some p => if p.deletedAt.isSome then p.variants.map (fun v => v.id) else []
  | CatalogEntity.variant _ => []

/-- `FulltextSearchService.update` (source lines 114-146) as a transformer of
the Index Store state. -/
def update (c : Catalog) (lang : String) (e : CatalogEntity)
    (st : List SearchIndexItem) : List SearchIndexItem :=
  let ups := updateTargets c e
  let rem := removedIds c e
  let st1 := if ups.isEmpty then st else saveSearchIndexItems lang ups st
  if rem.isEmpty then st1 else removeSearchIndexItems lang rem st1

/-- The variants loaded by `reindex` (source lines 96-101): all variants whose
parent product is not soft-deleted. -/
def activeVariantPairs (c : Catalog) : List (ProductM × ProductVariantM) :=
  (c.products.filter (fun p => p.deletedAt.isNone)).flatMap
    (fun p => p.variants.map (fun v => (p, v)))

/-- The response of `reindex`, together with the resulting store state. -/
structure ReindexResponse where
  store : List SearchIndexItem
  success : Bool
  indexedItemCount : Nat
deriving DecidableEq, Repr

/-- `FulltextSearchService.reindex` (source lines 94-109): delete every
record of the language, then bulk-write fresh records for all active
variants. -/
def reindex (c : Catalog) (lang : String) (st : List SearchIndexItem) :
    ReindexResponse :=
  let pvs := activeVariantPairs c
  let st1 := st.filter (fun it => decide ¬(it.languageCode = lang))
  { store := saveItems st1 (pvs.map (fun pv => mkSearchIndexItem lang pv.1 pv.2))
    success := true
    indexedItemCount := pvs.length }

/-- The `count({where: {languageCode}})` used by `checkIndex`. -/
def langCount (st : List SearchIndexItem) (lang : String) : Nat :=
  (st.filter (fun it => decide (it.languageCode = lang))).length

/-- `FulltextSearchService.checkIndex` (source lines 151-160).  The second
component counts how many `reindex` runs were triggered. -/
def checkIndex (c : Catalog) (lang : String) (st : List SearchIndexItem) :
    List SearchIndexItem × Nat :=
  if langCount st lang = 0 then ((reindex c lang st).store, 1) else (st, 0)

/-! ## Strategy selection (`FulltextSearchService.constructor`, lines 44-69) -/

/-- The strategy classes the constructor can instantiate. -/
inductive StrategyKind where
  | mysqlStrategy
  | sqliteStrategy
  | postgresStrategy
deriving DecidableEq, Repr

/-- The `switch (this.connection.options.type)` of the constructor
(source lines 54-68): returns the chosen strategy or the
`InternalServerError` message thrown for unsupported dialects. -/
def selectSearchStrategy (dbType : String) : Except String StrategyKind :=
  match dbType with
  | "mysql" => Except.ok StrategyKind.mysqlStrategy
  | "mariadb" => Except.ok StrategyKind.mysqlStrategy
  | "sqlite" => Except.ok StrategyKind.sqliteStrategy
  | "sqljs" => Except.ok StrategyKind.sqliteStrategy
  | "postgres" => Except.ok StrategyKind.postgresStrategy
  | _ => Except.error "error.database-not-supported-by-default-search-plugin"

end VendureSync

namespace VendureFixtures

open VendureSearch VendureSync

/-! ## Concrete fixtures used by counterexamples and witnesses -/

/-- A fulltext engine that ranks every document 0 (no fulltext match). -/
def ftZero : FtRank := fun _ _ => 0

/-- A completely neutral search input. -/
def inputBase : SearchInput :=
  { term := none, facetIds := none, skip := none, take := none,
    sort := none, groupByProduct := none }

/-- Search input with the 2-character term "ab". -/
def inputAB : SearchInput := { inputBase with term := some "ab" }

/-- Search input with the 3-character term "abc". -/
def inputABC : SearchInput := { inputBase with term := some "abc" }

/-- Search input filtering on facet ids A and B. -/
def inputFacetAB : SearchInput := { inputBase with facetIds := some ["A", "B"] }

/-- Search input filtering on the non-existent facet id Z. -/
def inputFacetZ : SearchInput := { inputBase with facetIds := some ["Z"] }

/-- An index row with no facets whose texts do not mention "ab". -/
def itemZ : SearchIndexItem :=
  { productVariantId := 1, languageCode := "en", productId := 1, sku := "zz",
    slug := "z", price := 100, productName := "Zed", productVariantName := "Zed v",
    description := "nothing", productPreview := "", productVariantPreview := "",
    facetIds := [], facetValueIds := [] }

/-- An index row whose SKU contains "abc". -/
def itemSku : SearchIndexItem := { itemZ with sku := "xabcy" }

/-- An index row tagged with facet value A only. -/
def itemA : SearchIndexItem := { itemZ with productVariantId := 21, facetValueIds := ["A"] }

/-- An index row tagged with facet value B only. -/
def itemB : SearchIndexItem := { itemZ with productVariantId := 22, facetValueIds := ["B"] }

/-- An index row tagged with both facet values A and B. -/
def itemABf : SearchIndexItem :=
  { itemZ with productVariantId := 23, facetValueIds := ["A", "B"] }

/-- The store of the three-record facet example. -/
def storeABC : List SearchIndexItem := [itemA, itemB, itemABf]

/-- A variant of the concrete catalog. -/
def v10 : ProductVariantM :=
  { id := 10, sku := "V10", price := 5, name := fun _ => "v ten",
    featuredAssetPreview := none, facetValues := [] }

/-- A soft-deleted product owning variant `v10`. -/
def p1 : ProductM :=
  { id := 1, slug := fun _ => "p-one", name := fun _ => "P One",
    description := fun _ => "d", deletedAt := some 5, featuredAssetPreview := none,
    facetValues := [], variants := [v10] }

/-- Catalog containing only the soft-deleted product `p1`. -/
def c2cat : Catalog := { products := [p1] }

/-- Index record of variant 10 in language "en". -/
def itemEn10 : SearchIndexItem :=
  { itemZ with productVariantId := 10, languageCode := "en" }

/-- Index record of variant 10 in language "de". -/
def itemDe10 : SearchIndexItem :=
  { itemZ with productVariantId := 10, languageCode := "de" }

/-- Index record of an unrelated variant 99 in language "en". -/
def itemEn99 : SearchIndexItem :=
  { itemZ with productVariantId := 99, languageCode := "en" }

/-- Store holding records of variant 10 in two languages plus a bystander. -/
def c2store : List SearchIndexItem := [itemEn10, itemDe10, itemEn99]

/-- A live (not deleted) product owning variant `v10`. -/
def p2 : ProductM := { p1 with id := 2, deletedAt := none }

/-- Catalog containing only the live product `p2`. -/
def c7cat : Catalog := { products := [p2] }

/-- The empty catalog. -/
def emptyCatalog : Catalog := { products := [] }

/-- The index record the Synchronizer writes for `v10` in "en". -/
def item10en : SearchIndexItem := mkSearchIndexItem "en" p2 v10

end VendureFixtures


namespace VendureSearch

/-! ## Lawfulness of the ORDER BY comparator chain -/

theorem cmp3_eq_lt {α : Type _} [LinearOrder α] {x y : α} :
    cmp3 x y = Ordering.lt ↔ x < y := by
  unfold cmp3
  split_ifs with h1 h2 <;> simp_all

theorem cmp3_eq_gt {α : Type _} [LinearOrder α] {x y : α} :
    cmp3 x y = Ordering.gt ↔ y < x := by
  unfold cmp3
  split_ifs with h1 h2 <;> simp_all
  exact le_of_lt h1

theorem cmp3_eq_eq {α : Type _} [LinearOrder α] {x y : α} :
    cmp3 x y = Ordering.eq ↔ x = y := by
  unfold cmp3
  split_ifs with h1 h2
  · exact iff_of_false (by simp) (ne_of_lt h1)
  · exact iff_of_false (by simp) (ne_of_lt h2).symm
  · constructor
    · intro _
      exact le_antisymm (not_lt.mp h2) (not_lt.mp h1)
    · intro _
      rfl

theorem cmp3_swap {α : Type _} [LinearOrder α] (x y : α) :
    cmp3 x y = (cmp3 y x).swap := by
  rcases lt_trichotomy x y with h | h | h
  · rw [cmp3_eq_lt.mpr h, cmp3_eq_gt.mpr h]
    rfl
  · subst h
    rw [cmp3_eq_eq.mpr rfl]
    rfl
  · rw [cmp3_eq_gt.mpr h, cmp3_eq_lt.mpr h]
    rfl

theorem lawfulCmp_key {α β : Type _} [LinearOrder α] (k : β → α) :
    LawfulCmp (fun a b => cmp3 (k a) (k b)) := by
  refine ⟨fun a b => cmp3_swap (k a) (k b), ?_, ?_, ?_, ?_⟩
  · intro a b c h1 h2
    exact cmp3_eq_lt.mpr (lt_trans (cmp3_eq_lt.mp h1) (cmp3_eq_lt.mp h2))
  · intro a b c h1 h2
    exact cmp3_eq_lt.mpr ((cmp3_eq_eq.mp h2) ▸ cmp3_eq_lt.mp h1)
  · intro a b c h1 h2
    exact cmp3_eq_lt.mpr ((cmp3_eq_eq.mp h1) ▸ cmp3_eq_lt.mp h2)
  · intro a b c h1 h2
    exact cmp3_eq_eq.mpr ((cmp3_eq_eq.mp h1).trans (cmp3_eq_eq.mp h2))

theorem lawfulCmp_flip {β : Type _} {f : β → β → Ordering} (hf : LawfulCmp f) :
    LawfulCmp (fun a b => f b a) := by
  refine ⟨fun a b => hf.swap_eq b a, ?_, ?_, ?_, ?_⟩
  · intro a b c h1 h2
    exact hf.lt_trans h2 h1
  · intro a b c h1 h2
    exact hf.lt_of_eq_of_lt h2 h1
  · intro a b c h1 h2
    exact hf.lt_of_lt_of_eq h2 h1
  · intro a b c h1 h2
    exact hf.eq_trans h2 h1

theorem lawfulCmp_const_eq {β : Type _} :
    LawfulCmp (fun (_ _ : β) => Ordering.eq) := by
  refine ⟨fun _ _ => rfl, ?_, ?_, ?_, ?_⟩
  · intro a b c h1 h2
    cases h1
  · intro a b c h1 h2
    cases h1
  · intro a b c h1 h2
    exact h2
  · intro a b c h1 h2
    exact h2

theorem then_eq_lt {x y : Ordering} :
    x.then y = Ordering.lt ↔ x = Ordering.lt ∨ (x = Ordering.eq ∧ y = Ordering.lt) := by
  cases x <;> simp [Ordering.then]

theorem then_eq_eq {x y : Ordering} :
    x.then y = Ordering.eq ↔ x = Ordering.eq ∧ y = Ordering.eq := by
  cases x <;> simp [Ordering.then]

theorem lawfulCmp_then {β : Type _} {f g : β → β → Ordering}
    (hf : LawfulCmp f) (hg : LawfulCmp g) :
    LawfulCmp (fun a b => (f a b).then (g a b)) := by
  refine ⟨?_, ?_, ?_, ?_, ?_⟩
  · intro a b
    have hba := hf.swap_eq b a
    cases hab : f a b <;>
      (rw [hab] at hba; simp [Ordering.then, Ordering.swap, hba, hg.swap_eq a b])
  · intro a b c h1 h2
    rcases then_eq_lt.mp h1 with hf1 | ⟨hf1, hg1⟩ <;>
      rcases then_eq_lt.mp h2 with hf2 | ⟨hf2, hg2⟩
    · exact then_eq_lt.mpr (Or.inl (hf.lt_trans hf1 hf2))
    · exact then_eq_lt.mpr (Or.inl (hf.lt_of_lt_of_eq hf1 hf2))
    · exact then_eq_lt.mpr (Or.inl (hf.lt_of_eq_of_lt hf1 hf2))
    · exact then_eq_lt.mpr (Or.inr ⟨hf.eq_trans hf1 hf2, hg.lt_trans hg1 hg2⟩)
  · intro a b c h1 h2
    rcases then_eq_lt.mp h1 with hf1 | ⟨hf1, hg1⟩ <;>
      rcases then_eq_eq.mp h2 with ⟨hf2, hg2⟩
    · exact then_eq_lt.mpr (Or.inl (hf.lt_of_lt_of_eq hf1 hf2))
    · exact then_eq_lt.mpr (Or.inr ⟨hf.eq_trans hf1 hf2, hg.lt_of_lt_of_eq hg1 hg2⟩)
  · intro a b c h1 h2
    rcases then_eq_eq.mp h1 with ⟨hf1, hg1⟩
    rcases then_eq_lt.mp h2 with hf2 | ⟨hf2, hg2⟩
    · exact then_eq_lt.mpr (Or.inl (hf.lt_of_eq_of_lt hf1 hf2))
    · exact then_eq_lt.mpr (Or.inr ⟨hf.eq_trans hf1 hf2, hg.lt_of_eq_of_lt hg1 hg2⟩)
  · intro a b c h1 h2
    rcases then_eq_eq.mp h1 with ⟨hf1, hg1⟩
    rcases then_eq_eq.mp h2 with ⟨hf2, hg2⟩
    exact then_eq_eq.mpr ⟨hf.eq_trans hf1 hf2, hg.eq_trans hg1 hg2⟩

theorem lawful_dirCmp {α β : Type _} [LinearOrder α] (o : SortOrder) (k : β → α) :
    LawfulCmp (fun a b => dirCmp o (k a) (k b)) := by
  cases o
  · exact lawfulCmp_key k
  · exact lawfulCmp_flip (lawfulCmp_key k)

theorem lawful_scoreCmpOf (input : SearchInput) : LawfulCmp (scoreCmpOf input) := by
  unfold scoreCmpOf
  split
  · exact lawfulCmp_flip (lawfulCmp_key scoreOf)
  · exact lawfulCmp_const_eq

theorem lawful_nameCmpOf (input : SearchInput) : LawfulCmp (nameCmpOf input) := by
  rcases hs : input.sort with _ | s
  · simp only [nameCmpOf, hs]
    exact lawfulCmp_const_eq
  · rcases hn : s.name with _ | o
    · simp only [nameCmpOf, hs, hn]
      exact lawfulCmp_const_eq
    · simp only [nameCmpOf, hs, hn]
      exact lawful_dirCmp o (fun r : Row => r.1.productName)

theorem lawful_priceCmpOf (input : SearchInput) : LawfulCmp (priceCmpOf input) := by
  rcases hs : input.sort with _ | s
  · simp only [priceCmpOf, hs]
    exact lawfulCmp_const_eq
  · rcases hp : s.price with _ | o
    · simp only [priceCmpOf, hs, hp]
      exact lawfulCmp_const_eq
    · simp only [priceCmpOf, hs, hp]
      exact lawful_dirCmp o (fun r : Row => r.1.price)

theorem lawful_rowCmp (input : SearchInput) : LawfulCmp (rowCmp input) := by
  unfold rowCmp
  exact lawfulCmp_then (lawful_scoreCmpOf input)
    (lawfulCmp_then (lawful_nameCmpOf input) (lawful_priceCmpOf input))

instance rowLETrans (input : SearchInput) : IsTrans Row (rowLE input) := by
  constructor
  intro a b c hab hbc
  have L := lawful_rowCmp input
  unfold rowLE at *
  cases h1 : rowCmp input a b <;> rw [h1] at hab
  · cases h2 : rowCmp input b c <;> rw [h2] at hbc
    · rw [L.lt_trans h1 h2]
      simp
    · rw [L.lt_of_lt_of_eq h1 h2]
      simp
    · exact absurd rfl hbc
  · cases h2 : rowCmp input b c <;> rw [h2] at hbc
    · rw [L.lt_of_eq_of_lt h1 h2]
      simp
    · rw [L.eq_trans h1 h2]
      simp
    · exact absurd rfl hbc
  · exact absurd rfl hab

instance rowLETotal (input : SearchInput) : IsTotal Row (rowLE input) := by
  constructor
  intro a b
  have L := lawful_rowCmp input
  cases h : rowCmp input a b
  · exact Or.inl (by unfold rowLE; rw [h]; simp)
  · exact Or.inl (by unfold rowLE; rw [h]; simp)
  · refine Or.inr ?_
    unfold rowLE
    have hs := L.swap_eq a b
    rw [h] at hs
    cases h2 : rowCmp input b a
    · decide
    · decide
    · rw [h2] at hs
      exact absurd hs (by decide)

/-! ## Elementary properties of `dedupBy` and `unique` -/

theorem mem_dedupByAux {α β : Type _} [DecidableEq β] {k : α → β} :
    ∀ {l : List α} {seen : List β} {x : α}, x ∈ dedupByAux k l seen → x ∈ l := by
  intro l
  induction l with
  | nil => intro seen x h; cases h
  | cons y t ih =>
    intro seen x h
    unfold dedupByAux at h
    by_cases hy : k y ∈ seen
    · rw [if_pos hy] at h
      exact List.mem_cons_of_mem y (ih h)
    · rw [if_neg hy] at h
      rcases List.mem_cons.mp h with h1 | h1
      · exact h1 ▸ List.mem_cons_self y t
      · exact List.mem_cons_of_mem y (ih h1)

theorem mem_dedupBy {α β : Type _} [DecidableEq β] {k : α → β} {l : List α} {x : α}
    (h : x ∈ dedupBy k l) : x ∈ l :=
  mem_dedupByAux h

theorem dedupByAux_map_nodup {α β : Type _} [DecidableEq β] (k : α → β) :
    ∀ (l : List α) (seen : List β),
      ((dedupByAux k l seen).map k).Nodup ∧
        ∀ b ∈ (dedupByAux k l seen).map k, b ∉ seen := by
  intro l
  induction l with
  | nil => intro seen; exact ⟨List.nodup_nil, by intro b hb; cases hb⟩
  | cons y t ih =>
    intro seen
    unfold dedupByAux
    by_cases hy : k y ∈ seen
    · rw [if_pos hy]
      exact ih seen
    · rw [if_neg hy]
      obtain ⟨hnd, hout⟩ := ih (k y :: seen)
      refine ⟨List.nodup_cons.mpr ⟨?_, hnd⟩, ?_⟩
      · intro hmem
        exact hout (k y) hmem (List.mem_cons_self _ _)
      · intro b hb
        rcases List.mem_cons.mp hb with h1 | h1
        · exact h1 ▸ hy
        · intro hbs
          exact hout b h1 (List.mem_cons_of_mem _ hbs)

theorem dedupByAux_covers {α β : Type _} [DecidableEq β] (k : α → β) :
    ∀ (l : List α) (seen : List β) (x : α), x ∈ l →
      k x ∈ seen ∨ k x ∈ (dedupByAux k l seen).map k := by
  intro l
  induction l with
  | nil => intro seen x h; cases h
  | cons y t ih =>
    intro seen x h
    unfold dedupByAux
    rcases List.mem_cons.mp h with h1 | h1
    · subst h1
      by_cases hy : k x ∈ seen
      · exact Or.inl hy
      · rw [if_neg hy]
        exact Or.inr (List.mem_cons_self _ _)
    · by_cases hy : k y ∈ seen
      · rw [if_pos hy]
        exact ih seen x h1
      · rw [if_neg hy]
        rcases ih (k y :: seen) x h1 with h2 | h2
        · rcases List.mem_cons.mp h2 with h3 | h3
          · refine Or.inr ?_
            rw [List.map_cons, h3]
            exact List.mem_cons_self _ _
          · exact Or.inl h3
        · exact Or.inr (List.mem_cons_of_mem _ h2)

theorem dedupBy_map_nodup {α β : Type _} [DecidableEq β] (k : α → β) (l : List α) :
    ((dedupBy k l).map k).Nodup :=
  (dedupByAux_map_nodup k l []).1

theorem dedupBy_covers {α β : Type _} [DecidableEq β] (k : α → β) {l : List α} {x : α}
    (h : x ∈ l) : k x ∈ (dedupBy k l).map k := by
  rcases dedupByAux_covers k l [] x h with h1 | h1
  · cases h1
  · exact h1

theorem VendureSync.mem_unique {α : Type _} [DecidableEq α] {l : List α} {x : α} :
    x ∈ VendureSync.unique l ↔ x ∈ l := by
  constructor
  · intro h
    exact mem_dedupBy h
  · intro h
    have := dedupBy_covers (fun a : α => a) h
    simpa using this

theorem VendureSync.nodup_unique {α : Type _} [DecidableEq α] (l : List α) :
    (VendureSync.unique l).Nodup := by
  have := dedupBy_map_nodup (fun a : α => a) l
  simpa using this

/-! ## Membership facts along the query pipeline -/

theorem mem_applyFacetFilter {input : SearchInput} {rows : List Row} {r : Row}
    (h : r ∈ applyFacetFilter input rows) : r ∈ rows := by
  unfold applyFacetFilter at h
  rcases hf : input.facetIds with _ | ids
  · rw [hf] at h
    exact h
  · rw [hf] at h
    exact (List.mem_filter.mp h).1

theorem mem_applyFacetFilter_facets {input : SearchInput} {rows : List Row} {r : Row}
    {ids : List String} (hids : input.facetIds = some ids)
    (h : r ∈ applyFacetFilter input rows) : ∀ i ∈ ids, i ∈ r.1.facetValueIds := by
  unfold applyFacetFilter at h
  rw [hids] at h
  have hall := (List.mem_filter.mp h).2
  intro i hi
  have := List.all_eq_true.mp hall i hi
  exact of_decide_eq_true this

theorem mem_applyGroupBy {input : SearchInput} {rows : List Row} {r : Row}
    (h : r ∈ applyGroupBy input rows) : r ∈ rows := by
  unfold applyGroupBy at h
  split at h
  · exact mem_dedupBy h
  · exact h

theorem mem_applyTermAndFilters {ft : FtRank} {store : List SearchIndexItem}
    {input : SearchInput} {r : Row} (h : r ∈ applyTermAndFilters ft store input) :
    r ∈ preGroupRows ft store input :=
  mem_applyGroupBy h

theorem mem_sortRows {input : SearchInput} {rows : List Row} {r : Row} :
    r ∈ sortRows input rows ↔ r ∈ rows :=
  List.mem_insertionSort (rowLE input)

theorem mem_getSearchResults {ft : FtRank} {store : List SearchIndexItem}
    {input : SearchInput} {r : Row} (h : r ∈ getSearchResults ft store input) :
    r ∈ applyTermAndFilters ft store input := by
  unfold getSearchResults at h
  have h1 := List.drop_subset _ _ (List.take_subset _ _ h)
  exact mem_sortRows.mp h1

theorem sorted_getSearchResultsUnpaginated (ft : FtRank) (store : List SearchIndexItem)
    (input : SearchInput) :
    List.Sorted (rowLE input) (getSearchResultsUnpaginated ft store input) :=
  List.sorted_insertionSort (rowLE input) (applyTermAndFilters ft store input)

theorem sorted_getSearchResults (ft : FtRank) (store : List SearchIndexItem)
    (input : SearchInput) :
    List.Sorted (rowLE input) (getSearchResults ft store input) := by
  have hsub : List.Sublist (getSearchResults ft store input)
      (getSearchResultsUnpaginated ft store input) := by
    unfold getSearchResults
    exact (List.take_sublist _ _).trans (List.drop_sublist _ _)
  exact (sorted_getSearchResultsUnpaginated ft store input).sublist hsub

end VendureSearch

namespace VendureSync

open VendureSearch

/-! ## Properties of the Index Store upsert -/

theorem mem_upsertOne {st : List SearchIndexItem} {it x : SearchIndexItem}
    (h : x ∈ upsertOne st it) : x ∈ st ∨ x = it := by
  unfold upsertOne at h
  split at h
  · rcases List.mem_map.mp h with ⟨o, ho, hxo⟩
    by_cases hk : ikey o = ikey it
    · rw [if_pos hk] at hxo
      exact Or.inr hxo.symm
    · rw [if_neg hk] at hxo
      exact Or.inl (hxo ▸ ho)
  · rcases List.mem_append.mp h with h1 | h1
    · exact Or.inl h1
    · exact Or.inr (List.mem_singleton.mp h1)

theorem upsertOne_key_elems (st : List SearchIndexItem) (it : SearchIndexItem) :
    ∀ o ∈ upsertOne st it, ikey o = ikey it → o = it := by
  intro o ho hko
  unfold upsertOne at ho
  split at ho
  · rcases List.mem_map.mp ho with ⟨a, ha, hao⟩
    by_cases hk : ikey a = ikey it
    · rw [if_pos hk] at hao
      exact hao.symm
    · rw [if_neg hk] at hao
      exact absurd (hao ▸ hko) hk
  · rcases List.mem_append.mp ho with h1 | h1
    · rename_i hany
      exact absurd (List.any_eq_true.mpr ⟨o, h1, decide_eq_true hko⟩) hany
    · exact List.mem_singleton.mp h1

theorem upsertOne_key_mem (st : List SearchIndexItem) (it : SearchIndexItem) :
    ∃ o ∈ upsertOne st it, ikey o = ikey it := by
  unfold upsertOne
  split
  · rename_i hany
    rcases List.any_eq_true.mp hany with ⟨a, ha, hka⟩
    refine ⟨it, ?_, rfl⟩
    refine List.mem_map.mpr ⟨a, ha, ?_⟩
    rw [if_pos (of_decide_eq_true hka)]
  · exact ⟨it, List.mem_append.mpr (Or.inr (List.mem_singleton.mpr rfl)), rfl⟩

theorem upsertOne_self_mem (st : List SearchIndexItem) (it : SearchIndexItem) :
    it ∈ upsertOne st it := by
  rcases upsertOne_key_mem st it with ⟨o, ho, hko⟩
  have := upsertOne_key_elems st it o ho hko
  exact this ▸ ho

theorem filter_map_upsert (it : SearchIndexItem) (k : Nat × String) (hk : ikey it ≠ k) :
    ∀ st : List SearchIndexItem,
      ((st.map (fun o => if ikey o = ikey it then it else o)).filter
          (fun o => decide (ikey o = k)))
        = st.filter (fun o => decide (ikey o = k)) := by
  intro st
  induction st with
  | nil => rfl
  | cons a t ih =>
    by_cases ha : ikey a = ikey it
    · have h2 : ikey a ≠ k := by rw [ha]; exact hk
      simp only [List.map_cons, if_pos ha, List.filter_cons]
      rw [decide_eq_false hk, decide_eq_false h2]
      exact ih
    · simp only [List.map_cons, if_neg ha, List.filter_cons]
      by_cases h2 : ikey a = k
      · rw [decide_eq_true h2, ih]
      · rw [decide_eq_false h2]
        exact ih

theorem upsertOne_filter_ne {it : SearchIndexItem} {k : Nat × String}
    (hk : ikey it ≠ k) (st : List SearchIndexItem) :
    (upsertOne st it).filter (fun o => decide (ikey o = k))
      = st.filter (fun o => decide (ikey o = k)) := by
  unfold upsertOne
  split
  · exact filter_map_upsert it k hk st
  · rw [List.filter_append]
    simp [decide_eq_false hk]

theorem saveItems_filter_ne {k : Nat × String} :
    ∀ (items : List SearchIndexItem), (∀ x ∈ items, ikey x ≠ k) →
      ∀ st : List SearchIndexItem,
        (saveItems st items).filter (fun o => decide (ikey o = k))
          = st.filter (fun o => decide (ikey o = k)) := by
  intro items
  induction items with
  | nil => intro _ st; rfl
  | cons x rest ih =>
    intro hall st
    have h1 := ih (fun y hy => hall y (List.mem_cons_of_mem x hy)) (upsertOne st x)
    have h2 := upsertOne_filter_ne (hall x (List.mem_cons_self x rest)) st
    calc (saveItems st (x :: rest)).filter (fun o => decide (ikey o = k))
        = (saveItems (upsertOne st x) rest).filter (fun o => decide (ikey o = k)) := rfl
      _ = (upsertOne st x).filter (fun o => decide (ikey o = k)) := h1
      _ = st.filter (fun o => decide (ikey o = k)) := h2

theorem upsertOne_uniform_noop {st : List SearchIndexItem} {it : SearchIndexItem}
    (hex : ∃ o ∈ st, ikey o = ikey it)
    (huni : ∀ o ∈ st, ikey o = ikey it → o = it) : upsertOne st it = st := by
  unfold upsertOne
  rcases hex with ⟨o, ho, hko⟩
  rw [if_pos (List.any_eq_true.mpr ⟨o, ho, decide_eq_true hko⟩)]
  have : ∀ a ∈ st, (if ikey a = ikey it then it else a) = id a := by
    intro a ha
    by_cases hk : ikey a = ikey it
    · rw [if_pos hk]
      exact (huni a ha hk).symm
    · rw [if_neg hk]
      rfl
  rw [List.map_congr_left this, List.map_id]

theorem mem_saveItems {x : SearchIndexItem} :
    ∀ {items st : List SearchIndexItem}, x ∈ saveItems st items → x ∈ st ∨ x ∈ items := by
  intro items
  induction items with
  | nil => intro st h; exact Or.inl h
  | cons i rest ih =>
    intro st h
    have h2 : x ∈ saveItems (upsertOne st i) rest := h
    rcases ih h2 with h1 | h1
    · rcases mem_upsertOne h1 with h2 | h2
      · exact Or.inl h2
      · exact Or.inr (h2 ▸ List.mem_cons_self i rest)
    · exact Or.inr (List.mem_cons_of_mem i h1)

theorem saveItems_idem :
    ∀ (items : List SearchIndexItem), (items.map ikey).Nodup →
      ∀ st, saveItems (saveItems st items) items = saveItems st items := by
  intro items
  induction items with
  | nil => intro _ st; rfl
  | cons it rest ih =>
    intro hnd st
    have hnd1 : ikey it ∉ rest.map ikey ∧ (rest.map ikey).Nodup := by
      rw [List.map_cons] at hnd
      exact List.nodup_cons.mp hnd
    have hk : ∀ x ∈ rest, ikey x ≠ ikey it := by
      intro x hx heq
      exact hnd1.1 (heq ▸ List.mem_map_of_mem ikey hx)
    have hfil := saveItems_filter_ne rest hk (upsertOne st it)
    have hTuni : ∀ o ∈ saveItems (upsertOne st it) rest, ikey o = ikey it → o = it := by
      intro o ho hko
      have hmem : o ∈ (saveItems (upsertOne st it) rest).filter
          (fun o => decide (ikey o = ikey it)) :=
        List.mem_filter.mpr ⟨ho, decide_eq_true hko⟩
      rw [hfil] at hmem
      have h3 := List.mem_filter.mp hmem
      exact upsertOne_key_elems st it o h3.1 (of_decide_eq_true h3.2)
    have hTex : ∃ o ∈ saveItems (upsertOne st it) rest, ikey o = ikey it := by
      rcases upsertOne_key_mem st it with ⟨o, ho, hko⟩
      have hmem : o ∈ (upsertOne st it).filter (fun o => decide (ikey o = ikey it)) :=
        List.mem_filter.mpr ⟨ho, decide_eq_true hko⟩
      rw [← hfil] at hmem
      have h3 := List.mem_filter.mp hmem
      exact ⟨o, h3.1, of_decide_eq_true h3.2⟩
    have hnoop : upsertOne (saveItems (upsertOne st it) rest) it
        = saveItems (upsertOne st it) rest :=
      upsertOne_uniform_noop hTex hTuni
    show saveItems (upsertOne (saveItems (upsertOne st it) rest) it) rest
        = saveItems (upsertOne st it) rest
    rw [hnoop]
    exact ih hnd1.2 (upsertOne st it)

theorem saveItems_exists_lang {lang : String} :
    ∀ (items : List SearchIndexItem), (∀ i ∈ items, i.languageCode = lang) →
      ∀ st, (items ≠ [] ∨ ∃ x ∈ st, x.languageCode = lang) →
        ∃ x ∈ saveItems st items, x.languageCode = lang := by
  intro items
  induction items with
  | nil =>
    intro _ st h
    rcases h with h | h
    · exact absurd rfl h
    · exact h
  | cons i rest ih =>
    intro hall st _
    refine ih (fun y hy => hall y (List.mem_cons_of_mem i hy)) (upsertOne st i) (Or.inr ?_)
    exact ⟨i, upsertOne_self_mem st i, hall i (List.mem_cons_self i rest)⟩

/-! ## Helper lemmas about `update`, `reindex`, `removeSearchIndexItems` -/

theorem remove_idem (lang : String) (ids : List Nat) (st : List SearchIndexItem) :
    removeSearchIndexItems lang ids (removeSearchIndexItems lang ids st)
      = removeSearchIndexItems lang ids st := by
  unfold removeSearchIndexItems
  rw [List.filter_filter]
  simp

theorem targets_nil_of_removed_ne {c : Catalog} {e : CatalogEntity}
    (h : removedIds c e ≠ []) : updateTargets c e = [] := by
  cases e with
  | product pid =>
    rcases hp : findProduct c pid with _ | p
    · simp only [removedIds, hp] at h
      exact absurd rfl h
    · by_cases hd : p.deletedAt.isSome
      · simp [updateTargets, hp, hd]
      · simp only [removedIds, hp, if_neg hd] at h
        exact absurd rfl h
  | variant vid => exact absurd rfl h

theorem nodup_ids_updateTargets (c : Catalog) (e : CatalogEntity)
    (h : ((allPairs c).map (fun pv => pv.2.id)).Nodup) :
    ((updateTargets c e).map (fun pv => pv.2.id)).Nodup := by
  cases e with
  | product pid =>
    rcases hp : findProduct c pid with _ | p
    · simp [updateTargets, hp]
    · by_cases hd : p.deletedAt.isSome
      · simp [updateTargets, hp, hd]
      · simp only [updateTargets, hp, if_neg hd]
        unfold findVariantPairsByIds
        exact List.Nodup.sublist
          (List.Sublist.map (fun pv : ProductM × ProductVariantM => pv.2.id)
            (List.filter_sublist _)) h
  | variant vid =>
    rcases hp : findVariantPair c vid with _ | pv
    · simp [updateTargets, hp]
    · simp [updateTargets, hp]

theorem nodup_keys_items (lang : String) (pvs : List (ProductM × ProductVariantM))
    (h : (pvs.map (fun pv => pv.2.id)).Nodup) :
    ((pvs.map (fun pv => mkSearchIndexItem lang pv.1 pv.2)).map ikey).Nodup := by
  rw [List.map_map]
  have heq : (ikey ∘ fun pv : ProductM × ProductVariantM => mkSearchIndexItem lang pv.1 pv.2)
      = (fun i => (i, lang)) ∘ (fun pv : ProductM × ProductVariantM => pv.2.id) := rfl
  rw [heq, ← List.map_map]
  refine List.Nodup.map ?_ h
  intro a b hab
  simpa using hab

theorem reindex_langCount_pos (c : Catalog) (lang : String) (st : List SearchIndexItem)
    (h : activeVariantPairs c ≠ []) :
    langCount (reindex c lang st).store lang ≠ 0 := by
  have hall : ∀ i ∈ (activeVariantPairs c).map (fun pv => mkSearchIndexItem lang pv.1 pv.2),
      i.languageCode = lang := by
    intro i hi
    rcases List.mem_map.mp hi with ⟨pv, _, heq⟩
    rw [← heq]
    rfl
  have hne : (activeVariantPairs c).map (fun pv => mkSearchIndexItem lang pv.1 pv.2) ≠ [] := by
    intro hc
    exact h (List.map_eq_nil_iff.mp hc)
  obtain ⟨x, hx, hlx⟩ := saveItems_exists_lang _ hall
    (st.filter (fun it => decide ¬(it.languageCode = lang))) (Or.inl hne)
  intro hc
  have hmem : x ∈ ((reindex c lang st).store.filter
      (fun it => decide (it.languageCode = lang))) :=
    List.mem_filter.mpr ⟨hx, decide_eq_true hlx⟩
  rw [List.length_eq_zero.mp hc] at hmem
  cases hmem

/-! ## Helper lemmas about the term threshold and scores -/

theorem term_ne_empty_of_len {t : String} (h : minTermLength < t.length) :
    (t == "") = false := by
  by_cases he : t = ""
  · subst he
    exact absurd h (by decide)
  · exact beq_eq_false_iff_ne.mpr he

theorem applyTermAndFilters_term (ft : FtRank) (store : List SearchIndexItem)
    (input : SearchInput) (t : String) (h : input.term = some t)
    (hlen : minTermLength < t.length) :
    applyTermAndFilters ft store input = rankedRows ft t store input := by
  unfold applyTermAndFilters rankedRows preGroupRows
  rw [h]
  simp [term_ne_empty_of_len hlen, decide_eq_true hlen]

theorem applyTermAndFilters_notrigger (ft : FtRank) (store : List SearchIndexItem)
    (input : SearchInput)
    (h : input.term = none ∨ ∃ t, input.term = some t ∧ t.length ≤ minTermLength) :
    applyTermAndFilters ft store input = facetOnlyRows store input := by
  unfold applyTermAndFilters facetOnlyRows preGroupRows
  rcases h with h | ⟨t, h, hlen⟩
  · rw [h]
  · rw [h]
    simp [decide_eq_false (not_lt.mpr hlen)]

theorem facetOnlyRows_score_none (store : List SearchIndexItem) (input : SearchInput) :
    ∀ r ∈ facetOnlyRows store input, r.2 = none := by
  intro r hr
  unfold facetOnlyRows at hr
  have h1 := mem_applyFacetFilter (mem_applyGroupBy hr)
  rcases List.mem_map.mp h1 with ⟨it, _, heq⟩
  rw [← heq]

theorem mem_rankedRows_score (ft : FtRank) (t : String) (store : List SearchIndexItem)
    (input : SearchInput) :
    ∀ r ∈ rankedRows ft t store input, r.2 = some (rankScore ft t r.1) := by
  intro r hr
  unfold rankedRows at hr
  have h1 := mem_applyFacetFilter (mem_applyGroupBy hr)
  rcases List.mem_map.mp h1 with ⟨it, _, heq⟩
  rw [← heq]

theorem mem_preGroupRows_facets {ft : FtRank} {store : List SearchIndexItem}
    {input : SearchInput} {ids : List String} {r : Row}
    (hids : input.facetIds = some ids) (h : r ∈ preGroupRows ft store input) :
    ∀ i ∈ ids, i ∈ r.1.facetValueIds := by
  unfold preGroupRows at h
  exact mem_applyFacetFilter_facets hids h

end VendureSync

namespace VendureClaims

open VendureSearch VendureSync VendureFixtures

/-- C1 counterexample: the claim says a term of length exactly 2 already
triggers term-based candidate filtering and scoring.  With the 2-character
term "ab" and the fulltext engine ranking everything 0, the record `itemZ`
is not a candidate (its SKU "zz" does not contain "ab" and no fulltext
predicate matches), so under the claim it would be filtered out and scored.
The code instead requires `term.length > 2`, performs no term filtering,
returns the record, and computes no score. -/
theorem C1_counterexample :
    getSearchResults ftZero [itemZ] inputAB = [(itemZ, (none : Option ℚ))] ∧
    isCandidate ftZero "ab" itemZ = false ∧ ("ab" : String).length = 2 := by
  exact ⟨rfl, rfl, rfl⟩

/-- C1 (amended): term-based candidate filtering and scoring applies exactly
when the term's length is *strictly greater* than 2 (i.e. at least 3); for an
absent term or a term of length at most 2 only facet-id membership filtering
applies and no score is computed. -/
theorem C1_term_threshold (ft : FtRank) (store : List SearchIndexItem)
    (input : SearchInput) :
    ((input.term = none ∨ ∃ t, input.term = some t ∧ t.length ≤ minTermLength) →
      applyTermAndFilters ft store input = facetOnlyRows store input ∧
      ∀ r ∈ applyTermAndFilters ft store input, r.2 = none) ∧
    (∀ t, input.term = some t → minTermLength < t.length →
      applyTermAndFilters ft store input = rankedRows ft t store input ∧
      ∀ r ∈ applyTermAndFilters ft store input, r.2 = some (rankScore ft t r.1)) := by
  constructor
  · intro h
    have he := applyTermAndFilters_notrigger ft store input h
    refine ⟨he, ?_⟩
    rw [he]
    exact facetOnlyRows_score_none store input
  · intro t h hlen
    have he := applyTermAndFilters_term ft store input t h hlen
    refine ⟨he, ?_⟩
    rw [he]
    exact mem_rankedRows_score ft t store input

/-- Witness for C1: the 3-character term "abc" takes the ranked pipeline and
the 2-character term "ab" takes the facet-only pipeline. -/
theorem C1_term_threshold_witness :
    applyTermAndFilters ftZero [itemZ] inputABC = rankedRows ftZero "abc" [itemZ] inputABC ∧
    applyTermAndFilters ftZero [itemZ] inputAB = facetOnlyRows [itemZ] inputAB :=
  ⟨((C1_term_threshold ftZero [itemZ] inputABC).2 "abc" rfl (by decide)).1,
   ((C1_term_threshold ftZero [itemZ] inputAB).1 (Or.inr ⟨"ab", rfl, by decide⟩)).1⟩

/-- C2 counterexample: product 1 of `c2cat` is soft-deleted and owns variant
10.  The claim says `update` deletes variant 10's records in **every**
language; but with the request language "en", the "de" record of variant 10
survives (only the "en" record is deleted). -/
theorem C2_counterexample :
    update c2cat "en" (CatalogEntity.product 1) c2store = [itemDe10, itemEn99] ∧
    itemDe10 ∈ update c2cat "en" (CatalogEntity.product 1) c2store := by
  exact ⟨rfl, by decide⟩

/-- C2 (amended): for a soft-deleted product, `update` deletes exactly the
index records of the product's variants *in the request context's language*:
a record survives iff it was in the store and is not (variant of the product,
request language). -/
theorem C2_soft_delete_language_scope (c : Catalog) (lang : String) (pid : Nat)
    (p : ProductM) (st : List SearchIndexItem) (hp : findProduct c pid = some p)
    (hdel : p.deletedAt.isSome = true) :
    ∀ it, it ∈ update c lang (CatalogEntity.product pid) st ↔
      it ∈ st ∧ ¬(it.productVariantId ∈ p.variants.map (fun v => v.id)
        ∧ it.languageCode = lang) := by
  intro it
  have ht : updateTargets c (CatalogEntity.product pid) = [] := by
    simp [updateTargets, hp, hdel]
  have hrm : removedIds c (CatalogEntity.product pid)
      = p.variants.map (fun v => v.id) := by
    simp [removedIds, hp, hdel]
  unfold update
  rw [ht, hrm]
  by_cases hv : p.variants.map (fun v => v.id) = []
  · rw [hv]
    simp
  · have hne : (p.variants.map (fun v => v.id)).isEmpty = false :=
      Bool.eq_false_iff.mpr (fun hc => hv (List.isEmpty_iff.mp hc))
    simp [hne, removeSearchIndexItems, List.mem_filter]

/-- Witness for C2: in the concrete catalog, the "en" record of variant 10 is
gone after the update. -/
theorem C2_soft_delete_language_scope_witness :
    itemEn10 ∉ update c2cat "en" (CatalogEntity.product 1) c2store := by
  intro h
  have h2 := (C2_soft_delete_language_scope c2cat "en" 1 p1 c2store rfl rfl itemEn10).mp h
  exact h2.2 (by decide)

/-- C3: facet filtering is conjunctive — a returned record carries every
requested facet id; over records tagged A, B, AB the filter [A, B] returns
only the AB record; a filter with a non-existent id returns zero matches
rather than an error. -/
theorem C3_facet_conjunctive :
    (∀ (ft : FtRank) (store : List SearchIndexItem) (input : SearchInput)
        (ids : List String), input.facetIds = some ids →
        ∀ r ∈ getSearchResults ft store input, ∀ i ∈ ids, i ∈ r.1.facetValueIds) ∧
    getSearchResults ftZero storeABC inputFacetAB = [(itemABf, (none : Option ℚ))] ∧
    getSearchResults ftZero storeABC inputFacetZ = [] := by
  refine ⟨?_, rfl, rfl⟩
  intro ft store input ids hids r hr i hi
  exact mem_preGroupRows_facets hids
    (mem_applyTermAndFilters (mem_getSearchResults hr)) i hi

/-- Witness for C3: the record returned under filter [A, B] carries facet A. -/
theorem C3_facet_conjunctive_witness : ("A" : String) ∈ itemABf.facetValueIds :=
  C3_facet_conjunctive.1 ftZero storeABC inputFacetAB ["A", "B"] rfl
    ((itemABf, none) : Row) (by decide) "A" (by decide)

/-- C9: strategy selection is total over the five supported dialect names
(mysql and mariadb share the MySQL strategy, sqlite and sqljs the SQLite
strategy, postgres its own) and every other dialect string raises the fatal
`InternalServerError` configuration error. -/
theorem C9_strategy_selection :
    selectSearchStrategy "mysql" = Except.ok StrategyKind.mysqlStrategy ∧
    selectSearchStrategy "mariadb" = Except.ok StrategyKind.mysqlStrategy ∧
    selectSearchStrategy "sqlite" = Except.ok StrategyKind.sqliteStrategy ∧
    selectSearchStrategy "sqljs" = Except.ok StrategyKind.sqliteStrategy ∧
    selectSearchStrategy "postgres" = Except.ok StrategyKind.postgresStrategy ∧
    ∀ s : String, s ∉ ["mysql", "mariadb", "sqlite", "sqljs", "postgres"] →
      selectSearchStrategy s
        = Except.error "error.database-not-supported-by-default-search-plugin" := by
  refine ⟨rfl, rfl, rfl, rfl, rfl, ?_⟩
  intro s hs
  simp only [List.mem_cons, List.not_mem_nil, or_false, not_or] at hs
  obtain ⟨h1, h2, h3, h4, h5⟩ := hs
  unfold selectSearchStrategy
  split
  · exact absurd rfl (by assumption)
  · exact absurd rfl (by assumption)
  · exact absurd rfl (by assumption)
  · exact absurd rfl (by assumption)
  · exact absurd rfl (by assumption)
  · rfl

/-- Witness for C9: an unsupported dialect string yields the configuration
error. -/
theorem C9_strategy_selection_witness :
    selectSearchStrategy "mongodb"
      = Except.error "error.database-not-supported-by-default-search-plugin" :=
  C9_strategy_selection.2.2.2.2.2 "mongodb" (by decide)

/-- C10: `take` of 0 and an absent `take` both paginate with the default
page size 25 (a caller cannot request a zero-size page); `skip` of 0 and an
absent `skip` both start at offset 0. -/
theorem C10_take_zero_default (ft : FtRank) (store : List SearchIndexItem)
    (input : SearchInput) :
    getSearchResults ft store { input with take := some 0 }
        = getSearchResults ft store { input with take := some 25 } ∧
    getSearchResults ft store { input with take := none }
        = getSearchResults ft store { input with take := some 25 } ∧
    getSearchResults ft store { input with skip := some 0 }
        = getSearchResults ft store { input with skip := none } ∧
    getSearchResults ft store { input with take := none, skip := none }
        = (getSearchResultsUnpaginated ft store input).take 25 := by
  refine ⟨rfl, rfl, rfl, ?_⟩
  have hsame : getSearchResultsUnpaginated ft store { input with take := none, skip := none }
      = getSearchResultsUnpaginated ft store input := rfl
  show (((getSearchResultsUnpaginated ft store
      { input with take := none, skip := none }).drop 0).take 25)
    = (getSearchResultsUnpaginated ft store input).take 25
  rw [List.drop_zero, hsame]

/-- C4: when the term triggers ranking (length strictly greater than 2 per
the source), every returned row's score equals the SKU bonus (10 if the SKU
contains the term, else 0) plus 2 times the productName fulltext rank plus
1.5 times the productVariantName rank plus 1 times the description rank; and
the returned sequence is ordered by the ORDER BY chain `rowLE`: score
descending first, then name direction if requested, then price direction if
requested. -/
theorem C4_score_and_order (ft : FtRank) (store : List SearchIndexItem)
    (input : SearchInput) (t : String) (h : input.term = some t)
    (hlen : minTermLength < t.length) :
    (∀ r ∈ getSearchResults ft store input,
      r.2 = some ((if strContains r.1.sku t then (10 : ℚ) else 0)
        + ft r.1.productName t * 2
        + ft r.1.productVariantName t * (3 / 2)
        + ft r.1.description t * 1)) ∧
    List.Sorted (rowLE input) (getSearchResults ft store input) ∧
    termTriggers input = true := by
  refine ⟨?_, sorted_getSearchResults ft store input, ?_⟩
  · intro r hr
    have h1 := mem_getSearchResults hr
    rw [applyTermAndFilters_term ft store input t h hlen] at h1
    exact mem_rankedRows_score ft t store input r h1
  · simp [termTriggers, h, term_ne_empty_of_len hlen, decide_eq_true hlen]

/-- Witness for C4: the row returned for term "abc" carries exactly the
SKU-bonus score. -/
theorem C4_score_and_order_witness :
    ((itemSku, some (rankScore ftZero "abc" itemSku)) : Row).2
      = some ((if strContains itemSku.sku "abc" then (10 : ℚ) else 0)
        + ftZero itemSku.productName "abc" * 2
        + ftZero itemSku.productVariantName "abc" * (3 / 2)
        + ftZero itemSku.description "abc" * 1) :=
  (C4_score_and_order ftZero [itemSku] inputABC "abc" rfl (by decide)).1
    ((itemSku, some (rankScore ftZero "abc" itemSku)) : Row)
    (show ((itemSku, some (rankScore ftZero "abc" itemSku)) : Row)
        ∈ getSearchResults ftZero [itemSku] inputABC
      from List.mem_singleton_self _)

/-- C5: the total count equals the length of the unpaginated, fully filtered
and grouped result sequence of the same input; moreover with
`groupByProduct` set the counted rows carry pairwise-distinct product ids
and cover the product id of every filtered row, i.e. the count is the number
of distinct products, not variants. -/
theorem C5_total_count (ft : FtRank) (store : List SearchIndexItem)
    (input : SearchInput) :
    getTotalCount ft store input = (getSearchResultsUnpaginated ft store input).length ∧
    ((applyTermAndFilters ft store { input with groupByProduct := some true }).map
        (fun r : Row => r.1.productId)).Nodup ∧
    ∀ r ∈ preGroupRows ft store input,
      r.1.productId ∈ (applyTermAndFilters ft store
        { input with groupByProduct := some true }).map (fun r : Row => r.1.productId) := by
  have heq : applyTermAndFilters ft store { input with groupByProduct := some true }
      = dedupBy (fun r : Row => r.1.productId) (preGroupRows ft store input) := by
    show applyGroupBy { input with groupByProduct := some true }
        (preGroupRows ft store { input with groupByProduct := some true })
      = dedupBy (fun r : Row => r.1.productId) (preGroupRows ft store input)
    unfold applyGroupBy
    rw [if_pos rfl]
    rfl
  refine ⟨?_, ?_, ?_⟩
  · unfold getTotalCount getSearchResultsUnpaginated sortRows
    exact (List.length_insertionSort _ _).symm
  · rw [heq]
    exact dedupBy_map_nodup _ _
  · intro r hr
    rw [heq]
    exact dedupBy_covers _ hr

/-- Witness for C5: the grouped count of the A/B/AB store covers product id
of a concrete filtered row. -/
theorem C5_total_count_witness :
    ((itemA, none) : Row).1.productId ∈ (applyTermAndFilters ftZero storeABC
      { inputBase with groupByProduct := some true }).map (fun r : Row => r.1.productId) :=
  (C5_total_count ftZero storeABC inputBase).2.2 ((itemA, none) : Row) (by decide)

/-- C6: every record written by `update` or `reindex` is a
`mkSearchIndexItem`, whose `facetIds` (resp. `facetValueIds`) field is the
duplicate-free union of the variant's and the parent product's facet ids
(resp. facet-value ids): membership is the disjunction of the two sides and
the list is duplicate-free — never just one side. -/
theorem C6_facet_union :
    (∀ (lang : String) (p : ProductM) (v : ProductVariantM),
      ((mkSearchIndexItem lang p v).facetIds.Nodup ∧
        ∀ x, x ∈ (mkSearchIndexItem lang p v).facetIds ↔
          (x ∈ v.facetValues.map (fun fv => toString fv.facetId) ∨
           x ∈ p.facetValues.map (fun fv => toString fv.facetId))) ∧
      ((mkSearchIndexItem lang p v).facetValueIds.Nodup ∧
        ∀ x, x ∈ (mkSearchIndexItem lang p v).facetValueIds ↔
          (x ∈ v.facetValues.map (fun fv => toString fv.id) ∨
           x ∈ p.facetValues.map (fun fv => toString fv.id)))) ∧
    (∀ (c : Catalog) (lang : String) (e : CatalogEntity)
        (st : List SearchIndexItem) (it : SearchIndexItem),
      it ∈ update c lang e st →
      it ∈ st ∨ ∃ pv ∈ updateTargets c e, it = mkSearchIndexItem lang pv.1 pv.2) ∧
    (∀ (c : Catalog) (lang : String) (st : List SearchIndexItem)
        (it : SearchIndexItem),
      it ∈ (reindex c lang st).store →
      it ∈ st ∨ ∃ pv ∈ activeVariantPairs c, it = mkSearchIndexItem lang pv.1 pv.2) := by
  refine ⟨?_, ?_, ?_⟩
  · intro lang p v
    refine ⟨⟨VendureSync.nodup_unique _, ?_⟩, ⟨VendureSync.nodup_unique _, ?_⟩⟩
    · intro x
      exact Iff.trans VendureSync.mem_unique List.mem_append
    · intro x
      exact Iff.trans VendureSync.mem_unique List.mem_append
  · intro c lang e st it h
    simp only [update] at h
    split at h
    · split at h
      · exact Or.inl h
      · rcases mem_saveItems h with h1 | h1
        · exact Or.inl h1
        · rcases List.mem_map.mp h1 with ⟨pv, hpv, heq⟩
          exact Or.inr ⟨pv, hpv, heq.symm⟩
    · unfold removeSearchIndexItems at h
      have h2 := (List.mem_filter.mp h).1
      split at h2
      · exact Or.inl h2
      · rcases mem_saveItems h2 with h1 | h1
        · exact Or.inl h1
        · rcases List.mem_map.mp h1 with ⟨pv, hpv, heq⟩
          exact Or.inr ⟨pv, hpv, heq.symm⟩
  · intro c lang st it h
    rcases mem_saveItems h with h1 | h1
    · exact Or.inl ((List.mem_filter.mp h1).1)
    · rcases List.mem_map.mp h1 with ⟨pv, hpv, heq⟩
      exact Or.inr ⟨pv, hpv, heq.symm⟩

/-- Witness for C6: the record `update` writes for variant 10 is the
`mkSearchIndexItem` of one of the written (product, variant) pairs. -/
theorem C6_facet_union_witness :
    item10en ∈ ([] : List SearchIndexItem) ∨
      ∃ pv ∈ updateTargets c7cat (CatalogEntity.variant 10),
        item10en = mkSearchIndexItem "en" pv.1 pv.2 :=
  C6_facet_union.2.1 c7cat "en" (CatalogEntity.variant 10) [] item10en (by decide)

/-- C7: `update` is idempotent: under the primary-key invariant that the
catalog's variant ids are pairwise distinct, processing the same
catalog-mutation notification twice leaves the index state of a single
application unchanged (the upsert replaces by the (variant id, language)
key and the delete removes by the same composite key). -/
theorem C7_update_idempotent (c : Catalog) (lang : String) (e : CatalogEntity)
    (st : List SearchIndexItem)
    (h : ((allPairs c).map (fun pv => pv.2.id)).Nodup) :
    update c lang e (update c lang e st) = update c lang e st := by
  by_cases hr : (removedIds c e).isEmpty
  · by_cases hu : (updateTargets c e).isEmpty
    · have hid : ∀ s, update c lang e s = s := by
        intro s
        simp only [update]
        rw [if_pos hu, if_pos hr]
      rw [hid, hid]
    · have hsave : ∀ s, update c lang e s = saveItems s
          ((updateTargets c e).map (fun pv => mkSearchIndexItem lang pv.1 pv.2)) := by
        intro s
        simp only [update]
        rw [if_neg hu, if_pos hr]
        rfl
      rw [hsave, hsave]
      exact saveItems_idem _ (nodup_keys_items lang _ (nodup_ids_updateTargets c e h)) st
  · have htarg : updateTargets c e = [] :=
      targets_nil_of_removed_ne (fun hc => hr (by rw [hc]; rfl))
    have hrem : ∀ s, update c lang e s
        = removeSearchIndexItems lang (removedIds c e) s := by
      intro s
      simp only [update, htarg, List.isEmpty_nil, if_true]
      rw [if_neg hr]
    rw [hrem, hrem]
    exact remove_idem lang _ _

/-- Witness for C7: processing the variant-10 notification twice on the
empty store equals processing it once. -/
theorem C7_update_idempotent_witness :
    update c7cat "en" (CatalogEntity.variant 10)
        (update c7cat "en" (CatalogEntity.variant 10) [])
      = update c7cat "en" (CatalogEntity.variant 10) [] :=
  C7_update_idempotent c7cat "en" (CatalogEntity.variant 10) [] (by decide)

/-- C8 counterexample: on the empty catalog, `reindex` leaves the language
count at zero, so the immediately following `checkIndex` *does* trigger a
second reindex — refuting the claim's unconditional "no second reindex". -/
theorem C8_counterexample :
    (checkIndex emptyCatalog "en" (reindex emptyCatalog "en" []).store).2 = 1 := rfl

/-- C8 (amended): `checkIndex` triggers exactly one reindex when the store
holds zero records for the language and performs no write (and no reindex)
otherwise; and provided the catalog holds at least one variant of a
non-deleted product, `reindex` immediately followed by `checkIndex` triggers
no second reindex. -/
theorem C8_check_index (c : Catalog) (lang : String) (st : List SearchIndexItem) :
    (langCount st lang = 0 → checkIndex c lang st = ((reindex c lang st).store, 1)) ∧
    (langCount st lang ≠ 0 → checkIndex c lang st = (st, 0)) ∧
    (activeVariantPairs c ≠ [] →
      (checkIndex c lang (reindex c lang st).store).2 = 0) := by
  refine ⟨?_, ?_, ?_⟩
  · intro h
    unfold checkIndex
    rw [if_pos h]
  · intro h
    unfold checkIndex
    rw [if_neg h]
  · intro h
    unfold checkIndex
    rw [if_neg (reindex_langCount_pos c lang st h)]

/-- Witness for C8: on a catalog with one live variant, `reindex` then
`checkIndex` triggers no second reindex. -/
theorem C8_check_index_witness :
    (checkIndex c7cat "en" (reindex c7cat "en" []).store).2 = 0 :=
  (C8_check_index c7cat "en" []).2.2
    (fun hc => absurd (congrArg List.length hc) (by decide))

end VendureClaims
